import Mathlib

/-!
Verification of the VacancySemanticSearch retrieval pipeline.

The development shallowly embeds the pure content of the repository:

* `src/search.py` — `load_resources`, `semantic_search` (its position
  resolution loop), `get_vacancies_by_ids`, `print_results` (its snippet
  truncation);
* `src/scripts/build_index.py` — `load_vacancies`, the artifact-writing
  sequence of `main`;
* `src/app.py` — the snippet construction of `search_interface`.

Machine floats are modelled by exact integers (`Vec := List Int`); the
embedding model is an opaque function parameter `embed : String → Vec`.
File-system state is modelled by explicit records of optional artifact
contents.  The FAISS vector index itself ships as an external library, so
its `IndexFlatIP` search and its serialization are modelled from the spec's
Vector Index contract (exact inner-product search, descending score,
position ties ascending, length ≤ k, save/load round-trip).
-/

namespace VacancySearch

/-- An embedding vector; components are exact integers standing in for the
    vector's float components. -/
abbrev Vec := List Int

/-- Inner product of two vectors (the similarity score of `IndexFlatIP`). -/
def dot : Vec → Vec → Int
  | [], _ => 0
  | _, [] => 0
  | a :: as, b :: bs => a * b + dot as bs

/-- Modelled from the spec: the FAISS `IndexFlatIP` flat index used by
    `build_faiss_index` (src/scripts/build_index.py) — a dimension `d` and
    the stored vectors in insertion order; position is the only identity. -/
structure IndexFlatIP where
  d : Nat
  vectors : List Vec
deriving DecidableEq, Repr

/-- `index.ntotal`: the number of stored vectors. -/
def IndexFlatIP.ntotal (idx : IndexFlatIP) : Nat := idx.vectors.length

/-- Comparison used to order search results: higher score first, ties by
    ascending position (spec §4.2: deterministic tie-breaking). -/
def scoreRel (a b : Nat × Int) : Prop := b.2 < a.2 ∨ (a.2 = b.2 ∧ a.1 ≤ b.1)

instance : DecidableRel scoreRel := fun a b => by
  unfold scoreRel; infer_instance

instance : IsTotal (Nat × Int) scoreRel :=
  ⟨fun a b => by unfold scoreRel; omega⟩

instance : IsTrans (Nat × Int) scoreRel :=
  ⟨fun a b c hab hbc => by
    unfold scoreRel at hab hbc ⊢; omega⟩

/-- Modelled from the spec: `index.search(q, k)` of the FAISS flat index —
    exact k-nearest-neighbour search under inner-product similarity: score
    every stored position, sort by descending score with ties broken by
    ascending position, return the first `k` (position, score) pairs. -/
def IndexFlatIP.search (idx : IndexFlatIP) (q : Vec) (k : Nat) : List (Nat × Int) :=
  (List.insertionSort scoreRel
    ((List.range idx.vectors.length).map
      (fun p => (p, dot q (idx.vectors.getD p []))))).take k

/-- Modelled from the spec: `faiss.write_index` — serialize the index as a
    header (dimension, vector count) followed by the flattened vector data. -/
def IndexFlatIP.save (idx : IndexFlatIP) : List Int :=
  (idx.d : Int) :: (idx.vectors.length : Int) :: (idx.vectors.flatten)

/-- Split a flat data block back into `n` vectors of `d` components each. -/
def chunk (d : Nat) : Nat → List Int → List Vec
  | 0, _ => []
  | n + 1, xs => xs.take d :: chunk d n (xs.drop d)

/-- Modelled from the spec: `faiss.read_index` — parse the header and
    rebuild the stored vector list; malformed input yields `none`. -/
def IndexFlatIP.load : List Int → Option IndexFlatIP
  | d :: n :: rest =>
    if 0 ≤ d ∧ 0 ≤ n then some ⟨d.toNat, chunk d.toNat n.toNat rest⟩ else none
  | _ => none

/-- A vector index is well formed when every stored vector has the index's
    dimension (FAISS enforces this shape on `add`). -/
def IndexFlatIP.wf (idx : IndexFlatIP) : Prop :=
  ∀ v ∈ idx.vectors, v.length = idx.d

/-- A row of the `vacancies` table: `id INTEGER PRIMARY KEY`, `title`,
    `description` (src/scripts/create_vacancy_db.py). -/
structure Record where
  id : Nat
  title : String
  description : String
deriving DecidableEq, Repr

/-- The text embedded for a record: `f"{row[1]}. {row[2]}"`
    (src/scripts/build_index.py, `load_vacancies`). -/
def embText (r : Record) : String := r.title ++ ". " ++ r.description

/-- Row order produced by `SELECT ... ORDER BY id`. -/
def recLe (a b : Record) : Prop := a.id ≤ b.id

instance : DecidableRel recLe := fun a b => by
  unfold recLe; infer_instance

instance : IsTotal Record recLe := ⟨fun a b => Nat.le_total a.id b.id⟩

instance : IsTrans Record recLe := ⟨fun _ _ _ => Nat.le_trans⟩

/-- `load_vacancies` (src/scripts/build_index.py): read all rows ordered by
    id and return the id list and the embedding-input texts, in that order. -/
def load_vacancies (db : List Record) : List Nat × List String :=
  let rows := List.insertionSort recLe db
  (rows.map (fun r => r.id), rows.map embText)

/-- The index/id-map pair produced by the build pipeline of
    `main` (src/scripts/build_index.py): embed every text in order, store
    the embeddings as the vector index, keep the ids as the ID map. -/
def buildArtifacts (embed : String → Vec) (db : List Record) :
    IndexFlatIP × List Nat :=
  let ids := (load_vacancies db).1
  let texts := (load_vacancies db).2
  let embeddings := texts.map embed
  (⟨(embeddings.headD []).length, embeddings⟩, ids)

/-- The position-resolution loop of `semantic_search` (src/search.py,
    lines 107-116): for each position returned by the index, if it lies in
    `[0, len(vacancy_ids))` append the mapped vacancy id to the results,
    otherwise record a diagnostic for it and continue; returns the results
    and the diagnosed out-of-range positions. -/
def resolvePositions (idMap : List Nat) : List Int → List Nat × List Int
  | [] => ([], [])
  | p :: rest =>
    let pr := resolvePositions idMap rest
    if 0 ≤ p ∧ p < (idMap.length : Int) then (idMap.getD p.toNat 0 :: pr.1, pr.2)
    else (pr.1, p :: pr.2)

/-- `semantic_search` (src/search.py): embed the query, search the FAISS
    index, and resolve the returned positions through the ID map. -/
def semantic_search (embed : String → Vec) (query : String) (idx : IndexFlatIP)
    (idMap : List Nat) (k : Nat) : List Nat × List Int :=
  resolvePositions idMap ((idx.search (embed query) k).map (fun pr => (pr.1 : Int)))

/-- The distinct load-time failures of `load_resources` (src/search.py):
    one `FileNotFoundError` per missing artifact, in check order. -/
inductive LoadError
  | dbNotFound
  | idMapNotFound
  | indexNotFound
deriving DecidableEq, Repr

/-- The persisted environment `load_resources` reads: whether the SQLite
    database file exists, the pickled ID map file's contents if present,
    and the FAISS index file's contents if present. -/
structure LoadEnv where
  dbExists : Bool
  idMapFile : Option (List Nat)
  indexFile : Option IndexFlatIP
deriving Repr

/-- `load_resources` (src/search.py): check the three artifact files in
    order (database, ID map, index) and raise `FileNotFoundError` for the
    first missing one; otherwise load the index and the ID map, emit a
    warning diagnostic when `index.ntotal != len(vacancy_ids)` (the
    result's boolean), and return the resources. -/
def load_resources (env : LoadEnv) :
    Except LoadError ((IndexFlatIP × List Nat) × Bool) :=
  if env.dbExists = false then .error .dbNotFound
  else
    match env.idMapFile, env.indexFile with
    | none, _ => .error .idMapNotFound
    | some _, none => .error .indexNotFound
    | some ids, some idx => .ok ((idx, ids), decide (idx.ntotal ≠ ids.length))

/-- The points at which a run of `main` (src/scripts/build_index.py) can
    raise: in `generate_embeddings`, in `np.save`, in `pickle.dump`, or in
    `faiss.write_index`. -/
inductive BuildFailure
  | embedFail
  | embSaveFail
  | idSaveFail
  | indexSaveFail
deriving DecidableEq, Repr

/-- The three artifact files the builder writes, each `none` when absent
    and otherwise holding its current (possibly stale) contents. -/
structure ArtifactStore where
  embFile : Option (List Vec)
  idFile : Option (List Nat)
  indexFile : Option IndexFlatIP
deriving DecidableEq, Repr

/-- `main` (src/scripts/build_index.py): load the rows, return early if the
    database is empty, then generate embeddings, write the embeddings file,
    write the ID map file, build the index and write the index file — each
    directly to its final location, in that order.  `fail` injects an
    exception at one of the four raising points; the boolean reports
    whether the run completed without raising. -/
def buildMain (embed : String → Vec) (db : List Record)
    (fail : Option BuildFailure) (s : ArtifactStore) : ArtifactStore × Bool :=
  let ids := (load_vacancies db).1
  let texts := (load_vacancies db).2
  if texts.isEmpty then (s, true)
  else if fail = some .embedFail then (s, false)
  else
    let embeddings := texts.map embed
    if fail = some .embSaveFail then (s, false)
    else
      let s1 : ArtifactStore := { s with embFile := some embeddings }
      if fail = some .idSaveFail then (s1, false)
      else
        let s2 : ArtifactStore := { s1 with idFile := some ids }
        if fail = some .indexSaveFail then (s2, false)
        else
          ({ s2 with
              indexFile := some ⟨(embeddings.headD []).length, embeddings⟩ },
            true)

/-- The rows matched by `select ... where id in (...)`
    (src/search.py, `get_vacancies_by_ids`): every stored row whose id
    occurs in the requested list, in store order. -/
def sqlWhereIn (db : List Record) (ids : List Nat) : List Record :=
  db.filter (fun r => ids.contains r.id)

/-- The dictionary `id_to_result` built row by row (`id_to_result[row[0]] =
    row`); assigning the same key again overwrites (Python dict semantics). -/
def buildDict (rows : List Record) : Nat → Option Record :=
  rows.foldl (fun m r => fun i => if i = r.id then some r else m i)
    (fun _ => none)

/-- The comprehension `[id_to_result[vid] for vid in ids if vid in
    id_to_result]` (src/search.py): one row per requested id that the
    dictionary holds, in request order. -/
def hydratedRows (ids : List Nat) (db : List Record) : List Record :=
  ids.filterMap (fun i => buildDict (sqlWhereIn db ids) i)

/-- The miss report `set(ids) - {r[0] for r in results}`, computed only
    when fewer rows than request entries came back. -/
def missingReport (ids : List Nat) (db : List Record) : List Nat :=
  if (hydratedRows ids db).length < ids.length then
    (ids.filter (fun i => (hydratedRows ids db).all (fun r => r.id ≠ i))).dedup
  else []

/-- `get_vacancies_by_ids` (src/search.py): an empty request returns no
    rows; otherwise fetch the matching rows, index them by id, and emit one
    row per requested id that was found, in request order, together with
    the reported missing ids (empty when nothing was reported). -/
def get_vacancies_by_ids (ids : List Nat) (db : List Record) :
    List Record × List Nat :=
  if ids.isEmpty then ([], [])
  else (hydratedRows ids db, missingReport ids db)

/-- The ellipsis marker `"..."` appended to truncated descriptions. -/
def ellipsis : List Char := ['.', '.', '.']

/-- The snippet built by `search_interface` (src/app.py, line 38):
    `f"{desc[:200]}..."` — the first 200 characters with the marker
    appended unconditionally. -/
def snippet_app (desc : List Char) : List Char := desc.take 200 ++ ellipsis

/-- The description display of `print_results` (src/search.py,
    lines 186-189): descriptions longer than 300 characters are cut to 300
    and get the marker; shorter ones are shown unchanged. -/
def print_snippet (desc : List Char) : List Char :=
  if desc.length > 300 then desc.take 300 ++ ellipsis else desc

/-! ## Claim C1 — load-time size-mismatch handling -/

/-- Claim C1, counterexample: with an ID map of length 2 and a vector index
    of size 3 present, `load_resources` does not raise — it returns the
    mismatched resources (with a warning diagnostic), so loading proceeds. -/
theorem load_mismatch_returns_ok_cex :
    load_resources ⟨true, some [1, 2], some ⟨1, [[1], [2], [3]]⟩⟩ =
      .ok ((⟨1, [[1], [2], [3]]⟩, [1, 2]), true) ∧
    (⟨1, [[1], [2], [3]]⟩ : IndexFlatIP).ntotal ≠ ([1, 2] : List Nat).length := by
  constructor
  · rfl
  · decide

/-- Claim C1, amended: at load time the size mismatch between the ID map
    and the vector index is detected and a warning diagnostic is emitted,
    but `load_resources` succeeds and returns the mismatched resources;
    loading fails only for missing artifact files. -/
theorem load_mismatch_warns_and_succeeds (env : LoadEnv) (ids : List Nat)
    (idx : IndexFlatIP) (h1 : env.dbExists = true)
    (h2 : env.idMapFile = some ids) (h3 : env.indexFile = some idx)
    (h4 : idx.ntotal ≠ ids.length) :
    load_resources env = .ok ((idx, ids), true) := by
  unfold load_resources
  rw [h1]
  simp [h2, h3, h4]

/-- Witness for the amended C1 theorem at a concrete environment. -/
theorem load_mismatch_warns_and_succeeds_witness :
    (⟨true, some [7], some ⟨1, [[1], [2]]⟩⟩ : LoadEnv).dbExists = true ∧
    load_resources ⟨true, some [7], some ⟨1, [[1], [2]]⟩⟩ =
      .ok ((⟨1, [[1], [2]]⟩, [7]), true) :=
  ⟨rfl, load_mismatch_warns_and_succeeds ⟨true, some [7], some ⟨1, [[1], [2]]⟩⟩
    [7] ⟨1, [[1], [2]]⟩ rfl rfl rfl (by decide)⟩

/-! ## Claim C2 — artifact-pair atomicity of the build -/

/-- Sorting an empty row set yields an empty row set and conversely. -/
theorem insertionSort_eq_nil_iff (db : List Record) :
    List.insertionSort recLe db = [] ↔ db = [] := by
  constructor
  · intro h
    have hlen := (List.perm_insertionSort recLe db).length_eq
    rw [h] at hlen
    exact List.eq_nil_of_length_eq_zero hlen.symm
  · intro h
    subst h
    rfl

/-- Claim C2, counterexample: starting from a store holding a stale
    artifact pair, a write failure at the index-write step
    (`faiss.write_index`) leaves the ID map file updated to the new build
    while the index file keeps its stale contents — the builder promoted
    one artifact and not the other. -/
theorem build_write_failure_stale_pair_cex :
    buildMain (fun _ => [4]) [⟨1, "a", "x"⟩] (some .indexSaveFail)
        ⟨some [[9]], some [7, 8], some ⟨1, [[3], [4]]⟩⟩ =
      (⟨some [[4]], some [1], some ⟨1, [[3], [4]]⟩⟩, false) ∧
    (some [1] : Option (List Nat)) ≠ some [7, 8] := by
  constructor
  · rfl
  · decide

/-- Claim C2, amended: if the embedding step fails, no artifact is
    persisted at all; but the builder writes each artifact directly to its
    final location in sequence (embeddings, then ID map, then index), so a
    storage write failure after index construction — at the index write —
    leaves the ID map file already updated while the index file keeps its
    previous, stale contents. -/
theorem build_abort_and_sequential_writes (embed : String → Vec)
    (db : List Record) (s : ArtifactStore) :
    (buildMain embed db (some .embedFail) s).1 = s ∧
    (db ≠ [] →
      (buildMain embed db (some .indexSaveFail) s).1.idFile =
        some (load_vacancies db).1 ∧
      (buildMain embed db (some .indexSaveFail) s).1.indexFile = s.indexFile) := by
  constructor
  · unfold buildMain
    by_cases h : ((load_vacancies db).2).isEmpty <;> simp [h]
  · intro hdb
    have hne : ¬ ((load_vacancies db).2).isEmpty := by
      simp only [load_vacancies, List.isEmpty_iff, List.map_eq_nil_iff]
      intro h
      exact hdb ((insertionSort_eq_nil_iff db).mp h)
    unfold buildMain
    simp [hne]

/-- Witness for the amended C2 theorem at a concrete build. -/
theorem build_abort_and_sequential_writes_witness :
    ([⟨1, "a", "x"⟩] : List Record) ≠ [] ∧
    (buildMain (fun _ => [4]) [⟨1, "a", "x"⟩] (some .indexSaveFail)
        ⟨none, none, none⟩).1.idFile =
      some (load_vacancies [⟨1, "a", "x"⟩]).1 ∧
    (buildMain (fun _ => [4]) [⟨1, "a", "x"⟩] (some .indexSaveFail)
        ⟨none, none, none⟩).1.indexFile =
      (⟨none, none, none⟩ : ArtifactStore).indexFile :=
  ⟨by simp,
    (build_abort_and_sequential_writes (fun _ => [4]) [⟨1, "a", "x"⟩]
      ⟨none, none, none⟩).2 (by simp)⟩

/-! ## Claim C4 — out-of-range positions are skipped, never fatal -/

/-- Claim C4: if the vector index returns a position outside
    `[0, len(IDMap))` anywhere in its result list, the resolution loop of
    `semantic_search` skips exactly that position, records a diagnostic for
    it, and resolves the remaining positions as if it were absent; the
    function is total, so the query is never aborted. -/
theorem search_skips_out_of_range_positions (idMap : List Nat)
    (pre post : List Int) (p : Int)
    (hp : ¬ (0 ≤ p ∧ p < (idMap.length : Int))) :
    (resolvePositions idMap (pre ++ p :: post)).1 =
      (resolvePositions idMap (pre ++ post)).1 ∧
    p ∈ (resolvePositions idMap (pre ++ p :: post)).2 := by
  induction pre with
  | nil => simp [resolvePositions, hp]
  | cons a pre ih =>
    simp only [List.cons_append, resolvePositions]
    by_cases ha : 0 ≤ a ∧ a < (idMap.length : Int)
    · simpa [ha] using ih
    · simpa [ha] using ⟨ih.1, Or.inr ih.2⟩

/-- Witness for C4 at a concrete ID map and position list. -/
theorem search_skips_out_of_range_positions_witness :
    ¬ ((0 : Int) ≤ -1 ∧ (-1 : Int) < (([10, 20] : List Nat).length : Int)) ∧
    ((resolvePositions [10, 20] ([0] ++ (-1) :: [1])).1 =
      (resolvePositions [10, 20] ([0] ++ [1])).1 ∧
     (-1 : Int) ∈ (resolvePositions [10, 20] ([0] ++ (-1) :: [1])).2) :=
  ⟨by decide, search_skips_out_of_range_positions [10, 20] [0] [1] (-1) (by decide)⟩

/-! ## Claim C3 — the build aligns index positions with ID-map entries -/

/-- Claim C3: the built vector index and ID map have identical length, the
    ID map is in ascending record-id order, and the vector stored at any
    position `p` is the embedding of a source record whose id is the ID
    map's entry at `p`. -/
theorem build_artifacts_aligned (embed : String → Vec) (db : List Record) :
    (buildArtifacts embed db).1.ntotal = (buildArtifacts embed db).2.length ∧
    List.Pairwise (fun a b => a ≤ b) (buildArtifacts embed db).2 ∧
    (∀ p, p < (buildArtifacts embed db).2.length →
      ∃ r ∈ db, r.id = (buildArtifacts embed db).2.getD p 0 ∧
        (buildArtifacts embed db).1.vectors.getD p [] = embed (embText r)) := by
  have hperm := List.perm_insertionSort recLe db
  refine ⟨?_, ?_, ?_⟩
  · simp [buildArtifacts, load_vacancies, IndexFlatIP.ntotal]
  · have hs : List.Pairwise recLe (List.insertionSort recLe db) :=
      List.sorted_insertionSort recLe db
    simp only [buildArtifacts, load_vacancies]
    exact List.pairwise_map.mpr hs
  · intro p hp
    simp only [buildArtifacts, load_vacancies, List.length_map] at hp
    refine ⟨(List.insertionSort recLe db)[p],
      hperm.mem_iff.mp (List.getElem_mem hp), ?_, ?_⟩
    · simp only [buildArtifacts, load_vacancies]
      rw [List.getD_eq_getElem _ _ (by simpa using hp), List.getElem_map]
    · simp only [buildArtifacts, load_vacancies, List.map_map]
      rw [List.getD_eq_getElem _ _ (by simpa using hp), List.getElem_map]
      rfl

/-- Witness for C3 at a concrete record set, embedding and position. -/
theorem build_artifacts_aligned_witness :
    0 < (buildArtifacts (fun _ => ([] : Vec))
      [⟨2, "b", "y"⟩, ⟨1, "a", "x"⟩]).2.length ∧
    ∃ r ∈ ([⟨2, "b", "y"⟩, ⟨1, "a", "x"⟩] : List Record),
      r.id = (buildArtifacts (fun _ => ([] : Vec))
        [⟨2, "b", "y"⟩, ⟨1, "a", "x"⟩]).2.getD 0 0 ∧
      (buildArtifacts (fun _ => ([] : Vec))
        [⟨2, "b", "y"⟩, ⟨1, "a", "x"⟩]).1.vectors.getD 0 [] =
        (fun _ => ([] : Vec)) (embText r) :=
  ⟨by decide,
    (build_artifacts_aligned (fun _ => ([] : Vec))
      [⟨2, "b", "y"⟩, ⟨1, "a", "x"⟩]).2.2 0 (by decide)⟩

/-! ## Claim C8 — persistence round-trip preserves search results -/

/-- Splitting the flattened data of uniformly-dimensioned vectors restores
    the vector list. -/
theorem chunk_flatten (d : Nat) (vs : List Vec) (h : ∀ v ∈ vs, v.length = d) :
    chunk d vs.length vs.flatten = vs := by
  induction vs with
  | nil => rfl
  | cons v vs ih =>
    have hv : v.length = d := h v (List.mem_cons_self v vs)
    have ht : (v ++ vs.flatten).take d = v := by
      rw [← hv]; exact List.take_left v vs.flatten
    have hd : (v ++ vs.flatten).drop d = vs.flatten := by
      rw [← hv]; exact List.drop_left v vs.flatten
    rw [List.length_cons, List.flatten_cons]
    show (v ++ vs.flatten).take d ::
      chunk d vs.length ((v ++ vs.flatten).drop d) = v :: vs
    rw [ht, hd, ih (fun x hx => h x (List.mem_cons_of_mem v hx))]

/-- Claim C8: saving a (well-formed) vector index and loading it back
    succeeds and yields an index whose search results coincide with the
    original's for every query vector and every `k`. -/
theorem index_save_load_roundtrip_search (idx : IndexFlatIP) (h : idx.wf) :
    ∃ idx2, IndexFlatIP.load (IndexFlatIP.save idx) = some idx2 ∧
      ∀ q k, idx2.search q k = idx.search q k := by
  refine ⟨idx, ?_, fun q k => rfl⟩
  obtain ⟨d, vs⟩ := idx
  show (if 0 ≤ (d : Int) ∧ 0 ≤ (vs.length : Int) then
      some (⟨((d : Int)).toNat,
        chunk ((d : Int)).toNat (((vs.length : Int))).toNat vs.flatten⟩ :
        IndexFlatIP)
    else none) = some ⟨d, vs⟩
  rw [if_pos ⟨Int.natCast_nonneg d, Int.natCast_nonneg vs.length⟩]
  rw [Int.toNat_natCast, Int.toNat_natCast, chunk_flatten d vs h]

/-- Witness for C8 at a concrete two-vector index. -/
theorem index_save_load_roundtrip_search_witness :
    (⟨1, [[2], [5]]⟩ : IndexFlatIP).wf ∧
    ∃ idx2, IndexFlatIP.load (IndexFlatIP.save ⟨1, [[2], [5]]⟩) = some idx2 ∧
      ∀ q k, idx2.search q k = (⟨1, [[2], [5]]⟩ : IndexFlatIP).search q k :=
  ⟨by unfold IndexFlatIP.wf; decide,
    index_save_load_roundtrip_search ⟨1, [[2], [5]]⟩
      (by unfold IndexFlatIP.wf; decide)⟩

/-! ## Claims C5 and C6 — search result count and ordering -/

/-- Projecting the positions back out of a scored candidate list. -/
theorem map_fst_pairs {β : Type} (g : Nat → β) (n : Nat) :
    ((List.range n).map (fun p => (p, g p))).map Prod.fst = List.range n := by
  rw [List.map_map]
  exact (List.map_congr_left (fun a _ => rfl)).trans (List.map_id _)

/-- When `k` is at least the index size, the positions returned by a search
    are a permutation of all stored positions. -/
theorem search_positions_perm (idx : IndexFlatIP) (q : Vec) (k : Nat)
    (hk : idx.ntotal ≤ k) :
    ((idx.search q k).map Prod.fst).Perm (List.range idx.ntotal) := by
  unfold IndexFlatIP.ntotal at hk
  unfold IndexFlatIP.search IndexFlatIP.ntotal
  rw [List.take_of_length_le (by
    rw [(List.perm_insertionSort scoreRel _).length_eq, List.length_map,
      List.length_range]
    exact hk)]
  refine ((List.perm_insertionSort scoreRel _).map Prod.fst).trans ?_
  rw [map_fst_pairs (fun p => dot q (idx.vectors.getD p [])) idx.vectors.length]

/-- When every position in the input is a valid ID-map position, the
    resolution loop resolves all of them, in order, with no diagnostics. -/
theorem resolvePositions_all_valid (idMap : List Nat) (ps : List Int)
    (h : ∀ p ∈ ps, 0 ≤ p ∧ p < (idMap.length : Int)) :
    resolvePositions idMap ps = (ps.map (fun p => idMap.getD p.toNat 0), []) := by
  induction ps with
  | nil => rfl
  | cons p rest ih =>
    have hp := h p (List.mem_cons_self p rest)
    have hrest := ih (fun x hx => h x (List.mem_cons_of_mem p hx))
    simp only [resolvePositions, hrest, if_pos hp, List.map_cons]

/-- Reading every position of a list through `getD` reproduces the list. -/
theorem range_map_getD (l : List Nat) :
    (List.range l.length).map (fun n => l.getD n 0) = l := by
  induction l with
  | nil => rfl
  | cons a l ih =>
    rw [List.length_cons, List.range_succ_eq_map, List.map_cons, List.map_map]
    simp only [Function.comp_def, List.getD_cons_zero, List.getD_cons_succ]
    rw [ih]

/-- Claim C5: for `k` exceeding the index size, `semantic_search` returns
    exactly `ntotal` results — a permutation of the whole ID map, with no
    padding entries and no skipped-position diagnostics; in particular the
    empty index yields the empty result. -/
theorem search_k_exceeding_size_returns_all (embed : String → Vec)
    (q : String) (idx : IndexFlatIP) (idMap : List Nat) (k : Nat)
    (hlen : idMap.length = idx.ntotal) (hk : idx.ntotal < k) :
    (semantic_search embed q idx idMap k).1.Perm idMap ∧
    (semantic_search embed q idx idMap k).1.length = idx.ntotal ∧
    (semantic_search embed q idx idMap k).2 = [] := by
  have hperm := search_positions_perm idx (embed q) k (Nat.le_of_lt hk)
  have hmapmap : (idx.search (embed q) k).map (fun pr => ((pr.1 : Nat) : Int)) =
      ((idx.search (embed q) k).map Prod.fst).map
        (fun n : Nat => (n : Int)) := by
    rw [List.map_map]
    rfl
  have hvalid : ∀ p ∈ (idx.search (embed q) k).map
      (fun pr => ((pr.1 : Nat) : Int)), 0 ≤ p ∧ p < (idMap.length : Int) := by
    intro p hp
    rw [hmapmap] at hp
    obtain ⟨n, hn, rfl⟩ := List.mem_map.mp hp
    have hnlt : n < idx.ntotal := by
      simpa [List.mem_range] using hperm.mem_iff.mp hn
    refine ⟨Int.natCast_nonneg n, ?_⟩
    rw [hlen]
    exact_mod_cast hnlt
  have hsearch : semantic_search embed q idx idMap k =
      (((idx.search (embed q) k).map Prod.fst).map (fun n => idMap.getD n 0),
        []) := by
    unfold semantic_search
    rw [resolvePositions_all_valid idMap _ hvalid, hmapmap, List.map_map]
    refine congrArg (fun l => (l, ([] : List Int))) ?_
    apply List.map_congr_left
    intro n _
    simp
  have hres : (semantic_search embed q idx idMap k).1.Perm idMap := by
    rw [hsearch]
    refine (hperm.map (fun n => idMap.getD n 0)).trans ?_
    rw [← hlen, range_map_getD]
  refine ⟨hres, hres.length_eq.trans hlen, ?_⟩
  rw [hsearch]

/-- Witness for C5: a two-vector index queried with `k = 5` yields both
    mapped ids and no diagnostics; the empty index yields nothing. -/
theorem search_k_exceeding_size_returns_all_witness :
    (([10, 20] : List Nat).length = (⟨1, [[2], [5]]⟩ : IndexFlatIP).ntotal ∧
      (semantic_search (fun _ => [1]) "q" ⟨1, [[2], [5]]⟩ [10, 20] 5).1.Perm
        [10, 20]) ∧
    (semantic_search (fun _ => [1]) "q" ⟨1, []⟩ [] 5).1.Perm [] :=
  ⟨⟨by decide,
      (search_k_exceeding_size_returns_all (fun _ => [1]) "q" ⟨1, [[2], [5]]⟩
        [10, 20] 5 (by decide) (by decide)).1⟩,
    (search_k_exceeding_size_returns_all (fun _ => [1]) "q" ⟨1, []⟩ [] 5
      (by decide) (by decide)).1⟩

/-- Claim C6: search results are sorted by non-increasing score, and two
    results with equal scores appear in ascending position order. -/
theorem index_search_sorted_desc_ties_asc (idx : IndexFlatIP) (q : Vec)
    (k : Nat) :
    (idx.search q k).Pairwise
      (fun a b => b.2 < a.2 ∨ (a.2 = b.2 ∧ a.1 < b.1)) := by
  unfold IndexFlatIP.search
  apply List.Pairwise.sublist (List.take_sublist _ _)
  have hsorted : List.Pairwise scoreRel
      (List.insertionSort scoreRel
        ((List.range idx.vectors.length).map
          (fun p => (p, dot q (idx.vectors.getD p []))))) :=
    List.sorted_insertionSort scoreRel _
  have hperm := List.perm_insertionSort scoreRel
    ((List.range idx.vectors.length).map
      (fun p => (p, dot q (idx.vectors.getD p []))))
  have hnscored : (((List.range idx.vectors.length).map
      (fun p => (p, dot q (idx.vectors.getD p [])))).map Prod.fst).Nodup := by
    rw [map_fst_pairs (fun p => dot q (idx.vectors.getD p []))
      idx.vectors.length]
    exact List.nodup_range idx.vectors.length
  have hnodup := ((hperm.map Prod.fst).nodup_iff).mpr hnscored
  have hne : List.Pairwise (fun a b : Nat × Int => a.1 ≠ b.1)
      (List.insertionSort scoreRel
        ((List.range idx.vectors.length).map
          (fun p => (p, dot q (idx.vectors.getD p []))))) :=
    List.pairwise_map.mp hnodup
  refine (hsorted.and hne).imp ?_
  rintro a b ⟨hab, hne1⟩
  unfold scoreRel at hab
  omega

/-! ## Claims C7 and C10 — hydration order, misses and multiplicity -/

/-- Folding the dictionary-building step looks up the last matching row of
    the remaining input, falling back to the accumulator. -/
theorem foldl_dict_apply (rows : List Record) (m : Nat → Option Record)
    (i : Nat) :
    (rows.foldl (fun m r => fun j => if j = r.id then some r else m j) m) i =
      (rows.reverse.find? (fun r => r.id == i)).or (m i) := by
  induction rows generalizing m with
  | nil => simp
  | cons r rest ih =>
    simp only [List.foldl_cons, List.reverse_cons, List.find?_append, ih,
      Option.or_assoc]
    by_cases hi : i = r.id
    · simp [List.find?, hi]
    · have hb : (r.id == i) = false := by
        simp only [beq_eq_false_iff_ne, ne_eq]
        omega
      simp [List.find?, hb, hi]

/-- With pairwise-distinct ids, the last matching row is the first one. -/
theorem find?_reverse_of_nodup (rows : List Record)
    (h : (rows.map Record.id).Nodup) (i : Nat) :
    rows.reverse.find? (fun r => r.id == i) =
      rows.find? (fun r => r.id == i) := by
  induction rows with
  | nil => rfl
  | cons r rest ih =>
    rw [List.map_cons, List.nodup_cons] at h
    rw [List.reverse_cons, List.find?_append, ih h.2]
    by_cases hi : r.id = i
    · have hnone : rest.find? (fun x => x.id == i) = none := by
        rw [List.find?_eq_none]
        intro x hx hbeq
        have hxi : x.id = i := by simpa using hbeq
        exact h.1 (List.mem_map.mpr ⟨x, hx, by omega⟩)
      simp [hnone, List.find?, hi]
    · have hb : (r.id == i) = false := by simpa using hi
      simp [List.find?, hb]

/-- Restricting the store to the requested ids does not change the row
    found for a requested id. -/
theorem find?_filter_contains (db : List Record) (ids : List Nat) (i : Nat)
    (hi : i ∈ ids) :
    (db.filter (fun r => ids.contains r.id)).find? (fun r => r.id == i) =
      db.find? (fun r => r.id == i) := by
  induction db with
  | nil => rfl
  | cons r rest ih =>
    rw [List.filter_cons]
    by_cases hc : ids.contains r.id
    · rw [if_pos hc]
      by_cases hri : r.id = i
      · simp [List.find?, hri]
      · have hb : (r.id == i) = false := by simpa using hri
        simp only [List.find?, hb]
        exact ih
    · have hri : r.id ≠ i := by
        intro h
        exact hc (List.elem_iff.mpr (h ▸ hi))
      have hb : (r.id == i) = false := by simpa using hri
      rw [if_neg hc]
      simp only [List.find?, hb]
      exact ih

/-- The hydrated row list is the requested ids, in request order, each
    replaced by its store row and dropped when absent. -/
theorem hydratedRows_eq_findMap (ids : List Nat) (db : List Record)
    (h : (db.map Record.id).Nodup) :
    hydratedRows ids db =
      ids.filterMap (fun i => db.find? (fun r => r.id == i)) := by
  unfold hydratedRows
  apply List.filterMap_congr
  intro i hi
  have hnodup : ((sqlWhereIn db ids).map Record.id).Nodup :=
    List.Nodup.sublist (List.Sublist.map Record.id (List.filter_sublist db)) h
  rw [show buildDict (sqlWhereIn db ids) i =
      ((sqlWhereIn db ids).reverse.find? (fun r => r.id == i)).or none from
    foldl_dict_apply _ _ i]
  rw [Option.or_none, find?_reverse_of_nodup _ hnodup i]
  exact find?_filter_contains db ids i hi

/-- The result list of `get_vacancies_by_ids` is the requested ids, in
    request order, each replaced by its store row and dropped when absent. -/
theorem get_vacancies_results_eq (ids : List Nat) (db : List Record)
    (h : (db.map Record.id).Nodup) :
    (get_vacancies_by_ids ids db).1 =
      ids.filterMap (fun i => db.find? (fun r => r.id == i)) := by
  unfold get_vacancies_by_ids
  by_cases hids : ids.isEmpty
  · rw [List.isEmpty_iff] at hids
    simp [hids]
  · rw [if_neg hids]
    exact hydratedRows_eq_findMap ids db h

/-- A requested id that maps to no row strictly shrinks the result list. -/
theorem length_filterMap_lt {α β : Type} (f : α → Option β) (l : List α)
    (a : α) (ha : a ∈ l) (hf : f a = none) :
    (l.filterMap f).length < l.length := by
  induction l with
  | nil => cases ha
  | cons b l ih =>
    rcases List.mem_cons.mp ha with rfl | ha2
    · rw [List.filterMap_cons, hf, List.length_cons]
      exact Nat.lt_succ_of_le (List.length_filterMap_le f l)
    · cases hb : f b with
      | none =>
        rw [List.filterMap_cons, hb, List.length_cons]
        exact Nat.lt_succ_of_lt (ih ha2)
      | some c =>
        rw [List.filterMap_cons, hb, List.length_cons, List.length_cons]
        exact Nat.succ_lt_succ (ih ha2)

/-- Claim C7: hydration returns the store rows for the requested ids in
    request order (absent ids dropped), every requested id absent from the
    store is reported, and the empty request yields the empty result; the
    function is total, so partial misses never raise. -/
theorem hydrate_preserves_order_drops_missing (ids : List Nat)
    (db : List Record) (h : (db.map Record.id).Nodup) :
    (get_vacancies_by_ids ids db).1 =
      ids.filterMap (fun i => db.find? (fun r => r.id == i)) ∧
    (∀ i ∈ ids, db.find? (fun r => r.id == i) = none →
      i ∈ (get_vacancies_by_ids ids db).2) ∧
    get_vacancies_by_ids [] db = ([], []) := by
  refine ⟨get_vacancies_results_eq ids db h, ?_, rfl⟩
  intro i hi hnone
  have hres := hydratedRows_eq_findMap ids db h
  have hlt : (hydratedRows ids db).length < ids.length := by
    rw [hres]
    exact length_filterMap_lt _ ids i hi hnone
  have hall : ∀ r ∈ hydratedRows ids db, r.id ≠ i := by
    intro r hr hri
    rw [hres] at hr
    obtain ⟨j, _, hj⟩ := List.mem_filterMap.mp hr
    have hrj : r.id = j := by
      simpa using List.find?_some (p := fun x : Record => x.id == j) hj
    have hij : j = i := by omega
    rw [hij] at hj
    rw [hj] at hnone
    cases hnone
  have hne : ¬ ids.isEmpty = true := by
    rw [List.isEmpty_iff]
    intro h0
    rw [h0] at hi
    cases hi
  unfold get_vacancies_by_ids
  rw [if_neg hne]
  show i ∈ missingReport ids db
  unfold missingReport
  rw [if_pos hlt, List.mem_dedup, List.mem_filter]
  refine ⟨hi, ?_⟩
  rw [List.all_eq_true]
  intro r hr
  simpa using hall r hr

/-- Witness for C7 at a concrete store and request. -/
theorem hydrate_preserves_order_drops_missing_witness :
    (([⟨1, "a", "x"⟩, ⟨3, "c", "z"⟩] : List Record).map Record.id).Nodup ∧
    (get_vacancies_by_ids [3, 1, 5] [⟨1, "a", "x"⟩, ⟨3, "c", "z"⟩]).1 =
      [3, 1, 5].filterMap
        (fun i => [⟨1, "a", "x"⟩, ⟨3, "c", "z"⟩].find? (fun r => r.id == i)) :=
  ⟨by decide,
    (hydrate_preserves_order_drops_missing [3, 1, 5]
      [⟨1, "a", "x"⟩, ⟨3, "c", "z"⟩] (by decide)).1⟩

/-- Counting through `filterMap` when exactly one input value can produce
    the counted output value. -/
theorem count_filterMap_eq {α β : Type} [DecidableEq α] [DecidableEq β]
    (f : α → Option β) (l : List α) (a : α) (b : β)
    (hab : ∀ x, f x = some b ↔ x = a) :
    (l.filterMap f).count b = l.count a := by
  induction l with
  | nil => rfl
  | cons x l ih =>
    cases hx : f x with
    | none =>
      have hxa : x ≠ a := by
        intro h
        rw [(hab x).mpr h] at hx
        cases hx
      rw [List.filterMap_cons, hx, List.count_cons]
      simp [hxa, ih]
    | some c =>
      by_cases hc : c = b
      · subst hc
        have hxa : x = a := (hab x).mp hx
        rw [List.filterMap_cons, hx, List.count_cons, List.count_cons]
        simp [hxa, ih]
      · have hxa : x ≠ a := by
          intro h
          rw [(hab x).mpr h] at hx
          exact hc (Option.some.inj hx).symm
        rw [List.filterMap_cons, hx, List.count_cons, List.count_cons]
        simp [hc, hxa, ih]

/-- Claim C10: hydration yields one result row per occurrence of a
    requested id that exists in the store — a duplicated requested id
    yields its row with the same multiplicity, despite the SQL `IN` lookup
    matching each stored row only once. -/
theorem hydrate_duplicate_ids_multiplicity (ids : List Nat)
    (db : List Record) (i : Nat) (r : Record)
    (h : (db.map Record.id).Nodup)
    (hr : db.find? (fun x => x.id == i) = some r) :
    (get_vacancies_by_ids ids db).1.count r = ids.count i := by
  rw [get_vacancies_results_eq ids db h]
  apply count_filterMap_eq
  intro j
  constructor
  · intro hj
    have hrj : r.id = j := by
      simpa using List.find?_some (p := fun x : Record => x.id == j) hj
    have hri : r.id = i := by
      simpa using List.find?_some (p := fun x : Record => x.id == i) hr
    omega
  · intro hj
    rw [hj]
    exact hr

/-- Witness for C10: the id 1 requested twice yields its row twice. -/
theorem hydrate_duplicate_ids_multiplicity_witness :
    (([⟨1, "a", "x"⟩] : List Record).map Record.id).Nodup ∧
    (get_vacancies_by_ids [1, 1] [⟨1, "a", "x"⟩]).1.count ⟨1, "a", "x"⟩ =
      [1, 1].count 1 :=
  ⟨by decide,
    hydrate_duplicate_ids_multiplicity [1, 1] [⟨1, "a", "x"⟩] 1 ⟨1, "a", "x"⟩
      (by decide) (by decide)⟩

/-! ## Claim C9 — snippet truncation and the ellipsis marker -/

/-- Claim C9, counterexample: the web interface's snippet
    (`search_interface`, src/app.py) appends the ellipsis marker even to a
    description well inside the budget, so a non-truncated description is
    not shown without the marker. -/
theorem app_snippet_marker_cex :
    snippet_app ['h', 'i'] ≠ ['h', 'i'] ∧
    (['h', 'i'] : List Char).length ≤ 200 := by
  constructor
  · decide
  · decide

/-- Claim C9, amended: the CLI printer (`print_results`, src/search.py)
    truncates to the fixed 300-character budget and appends the ellipsis
    marker exactly when the description exceeds it, while the web interface
    (`search_interface`, src/app.py) always shows the first 200 characters
    with the marker appended, even when nothing was truncated. -/
theorem snippet_truncation_behavior (desc : List Char) :
    (desc.length ≤ 300 → print_snippet desc = desc) ∧
    (300 < desc.length → print_snippet desc = desc.take 300 ++ ellipsis) ∧
    (desc.length ≤ 200 → snippet_app desc = desc ++ ellipsis) := by
  refine ⟨fun h => ?_, fun h => ?_, fun h => ?_⟩
  · simp [print_snippet, Nat.not_lt.mpr h]
  · simp [print_snippet, h]
  · simp [snippet_app, List.take_of_length_le h]

/-- Witness for the amended C9 theorem at concrete descriptions. -/
theorem snippet_truncation_behavior_witness :
    (['o', 'k'] : List Char).length ≤ 300 ∧ print_snippet ['o', 'k'] = ['o', 'k'] :=
  ⟨by decide, (snippet_truncation_behavior ['o', 'k']).1 (by decide)⟩

end VacancySearch
